import Mathlib

/-!
A verification development for the AskQss RAG backend.

The Python sources are shallowly embedded:
- `src/backend/app/services/document_processor.py` (`DocumentProcessor.chunk_text`,
  which delegates to LangChain's `RecursiveCharacterTextSplitter` with
  `separators = ["\n\n", "\n", " ", ""]`, `length_function = len` and the class
  default `keep_separator = True`; the splitter algorithm is embedded below over
  `List Char`),
- `src/backend/app/services/vector_store.py` (`VectorStoreService`),
- `src/backend/app/services/rag_service.py` (`RAGService.query`,
  `RAGService.add_document`, `RAGService.delete_document`).

Python dictionaries with string keys are embedded as association lists where the
last binding for a key wins (matching the `{**base, **overrides}` merge);
external collaborators (embedding client, generative model, the distances the
vector index computes) are parameters of the embedded operations.  Machine
floats that the claims treat as exact arithmetic are embedded as rationals.
-/

/-- A value stored in an embedded Python dict (the metadata dicts of the
service hold strings and ints). -/
inductive MetaValue where
  | str : String → MetaValue
  | int : Int → MetaValue
deriving DecidableEq

deriving instance DecidableEq for Except

/-- A Python dict with string keys, as an association list in which a later
binding for a key overrides an earlier one. -/
abbrev Dict := List (String × MetaValue)

/-- Dict lookup: the last binding for the key, as Python's `d[k]` / `d.get(k)`
after merges. -/
def dget (d : Dict) (k : String) : Option MetaValue :=
  ((d.filter (fun p => p.1 = k)).getLast?).map (·.2)

/-! ## The chunker

Embedding of LangChain's `RecursiveCharacterTextSplitter.split_text` as used by
`DocumentProcessor.chunk_text`: literal (non-regex) separators, character count
as the length function, `keep_separator = True`, `strip_whitespace = True`.
Texts are `List Char`. -/

/-- Python's `str.strip()` whitespace test for one character (the characters
`str.split`-style stripping removes: ASCII whitespace, the C1/Unicode space
code points). -/
def isPySpace (c : Char) : Bool :=
  let n := c.toNat
  (9 ≤ n && n ≤ 13) || n == 32 || (28 ≤ n && n ≤ 31) || n == 0x85 || n == 0xa0 ||
    n == 0x1680 || (0x2000 ≤ n && n ≤ 0x200a) || n == 0x2028 || n == 0x2029 ||
    n == 0x202f || n == 0x205f || n == 0x3000

/-- Python's `text.strip()`: drop leading and trailing whitespace. -/
def pyStrip (l : List Char) : List Char :=
  ((l.dropWhile isPySpace).reverse.dropWhile isPySpace).reverse

/-- Splitting on a literal separator, leftmost-first and non-overlapping, as
Python's `re.split(re.escape(sep), text)`.  The fuel argument (the length of
the unprocessed text at the top call) only makes the recursion structural; it
never runs out. -/
def splitOnGo (sep : List Char) : Nat → List Char → List Char → List (List Char)
  | _, [], acc => [acc.reverse]
  | 0, text, acc => [acc.reverse ++ text]
  | fuel + 1, c :: rest, acc =>
    if sep.isPrefixOf (c :: rest) then
      acc.reverse :: splitOnGo sep fuel (rest.drop (sep.length - 1)) []
    else
      splitOnGo sep fuel rest (c :: acc)

/-- `re.split(re.escape(sep), text)` for a non-empty literal separator. -/
def splitOnSub (sep text : List Char) : List (List Char) :=
  splitOnGo sep text.length text []

/-- LangChain's `_split_text_with_regex(text, separator, keep_separator=True)`:
for a non-empty separator the separator is kept, glued to the front of the
following piece; the empty separator splits into single characters; empty
pieces are filtered out. -/
def splitTextWithSep (text sep : List Char) : List (List Char) :=
  (if sep.isEmpty then
    text.map (fun c => [c])
  else
    match splitOnSub sep text with
    | [] => []
    | t :: ts => t :: ts.map (fun x => sep ++ x)).filter (fun x => !x.isEmpty)

/-- Python's `re.search(re.escape(sep), text) is not None`: does `sep` occur
in `text` as a contiguous substring? -/
def hasSub : List Char → List Char → Bool
  | sep, [] => sep.isEmpty
  | sep, c :: rest => sep.isPrefixOf (c :: rest) || hasSub sep rest

/-- The separator-choice loop of `_split_text`: the first separator that is
empty (chosen with no remaining separators) or occurs in the text (chosen with
the remaining separators after it). -/
def chooseSepAux : List (List Char) → List Char → Option (List Char × List (List Char))
  | [], _ => none
  | s :: rest, text =>
    if s.isEmpty then some ([], [])
    else if hasSub s text then some (s, rest)
    else chooseSepAux rest text

/-- `_split_text`'s chosen `(separator, new_separators)`: the loop above, with
the last separator and no remaining ones when nothing matched. -/
def chooseSep (seps : List (List Char)) (text : List Char) : List Char × List (List Char) :=
  (chooseSepAux seps text).getD (seps.getLastD [], [])

/-- `_join_docs(docs, separator)`: join, strip whitespace, `none` when the
result is empty. -/
def joinDocs (docs : List (List Char)) (sep : List Char) : Option (List Char) :=
  let text := pyStrip (List.intercalate sep docs)
  if text.isEmpty then none else some text

/-- The inner `while` of `_merge_splits`, popping documents off the front of
the running window.  `dlen` is the length of the split about to be appended.
Totals are integers, as in Python.  (Python would raise an IndexError if the
window emptied with the condition still true; that state is unreachable and
the embedding stops there.) -/
def popWhile (sep : List Char) (cs co : Nat) (dlen : Int) :
    List (List Char) → Int → List (List Char) × Int
  | [], total => ([], total)
  | c0 :: rest, total =>
    if total > (co : Int) ∨
        (total + dlen + (if (c0 :: rest).length > 1 then (sep.length : Int) else 0) > (cs : Int)
          ∧ total > 0) then
      popWhile sep cs co dlen rest
        (total - ((c0.length : Int) + (if (c0 :: rest).length > 1 then (sep.length : Int) else 0)))
    else
      (c0 :: rest, total)

/-- The loop body of `_merge_splits`: walk the splits, flushing the running
window into an output document whenever appending the next split would exceed
`chunk_size`. -/
def mergeGo (sep : List Char) (cs co : Nat) :
    List (List Char) → List (List Char) → Int → List (List Char)
  | [], current, _ =>
    match joinDocs current sep with
    | some d => [d]
    | none => []
  | d :: ds, current, total =>
    let dlen : Int := d.length
    if total + dlen + (if current.length > 0 then (sep.length : Int) else 0) > (cs : Int) then
      let flushed :=
        match joinDocs current sep with
        | some doc => [doc]
        | none => []
      let popped := popWhile sep cs co dlen current total
      let current' := popped.1 ++ [d]
      let total' := popped.2 + dlen + (if current'.length > 1 then (sep.length : Int) else 0)
      flushed ++ mergeGo sep cs co ds current' total'
    else
      let current' := current ++ [d]
      let total' := total + dlen + (if current'.length > 1 then (sep.length : Int) else 0)
      mergeGo sep cs co ds current' total'

/-- LangChain's `_merge_splits(splits, separator)` with the instance's
`chunk_size`/`chunk_overlap`. -/
def mergeSplits (splits : List (List Char)) (sep : List Char) (cs co : Nat) : List (List Char) :=
  mergeGo sep cs co splits [] 0

/-- The split-processing loop of `_split_text`: good splits (shorter than
`chunk_size`) are buffered and merged; a too-long split first flushes the
buffer, then is appended as-is when no separators remain or recursively split
otherwise (`recur`).  With `keep_separator = True` merging always uses the
empty separator. -/
def procSplits (recur : List Char → List (List Char)) (newSepsNil : Bool) (cs co : Nat) :
    List (List Char) → List (List Char) → List (List Char)
  | [], good => if good.isEmpty then [] else mergeSplits good [] cs co
  | s :: rest, good =>
    if s.length < cs then
      procSplits recur newSepsNil cs co rest (good ++ [s])
    else
      (if good.isEmpty then [] else mergeSplits good [] cs co)
        ++ (if newSepsNil then [s] else recur s)
        ++ procSplits recur newSepsNil cs co rest []

/-- `RecursiveCharacterTextSplitter._split_text(text, separators)`.  The fuel
argument (the number of separators at the top call) only makes the nested
recursion structural: each recursive call passes a strictly shorter separator
list, so fuel never runs out.  (Python would raise an IndexError on an empty
separator list; the embedding returns `[]` there.) -/
def splitTextRec : Nat → List (List Char) → List Char → Nat → Nat → List (List Char)
  | 0, _, _, _, _ => []
  | fuel + 1, seps, text, cs, co =>
    if seps.isEmpty then []
    else
      let sn := chooseSep seps text
      procSplits (fun t => splitTextRec fuel sn.2 t cs co) sn.2.isEmpty cs co
        (splitTextWithSep text sn.1) []

/-- The separator list `DocumentProcessor.chunk_text` configures:
`["\n\n", "\n", " ", ""]`. -/
def recursiveSeparators : List (List Char) := [['\n', '\n'], ['\n'], [' '], []]

/-- `RecursiveCharacterTextSplitter.split_text` for the configuration built by
`DocumentProcessor.chunk_text`. -/
def splitTextTop (text : List Char) (cs co : Nat) : List (List Char) :=
  splitTextRec recursiveSeparators.length recursiveSeparators text cs co

/-- The state of a `RecursiveCharacterTextSplitter` instance that
`DocumentProcessor` caches: its `_chunk_size` and `_chunk_overlap` (the
separators and length function are fixed at creation). -/
structure Splitter where
  chunk_size : Nat
  chunk_overlap : Nat
deriving DecidableEq

/-- `DocumentProcessor.chunk_text`: reuse the cached splitter when its
parameters match, otherwise create a fresh one; then split.  Returns the new
cache together with the chunks. -/
def DocumentProcessor.chunk_text (cache : Option Splitter) (text : List Char) (cs co : Nat) :
    Option Splitter × List (List Char) :=
  let sp :=
    match cache with
    | none => Splitter.mk cs co
    | some sp =>
      if sp.chunk_size ≠ cs ∨ sp.chunk_overlap ≠ co then Splitter.mk cs co else sp
  (some sp, splitTextTop text sp.chunk_size sp.chunk_overlap)

/-- The parameter constraints §4.1 of the spec places on the chunker: both
parameters are positive integers and the overlap is smaller than the chunk
size. -/
def validChunkParams (cs co : Nat) : Prop :=
  0 < cs ∧ 0 < co ∧ co < cs

/-! ## The vector index access layer (`vector_store.py`)

A ChromaDB record and the collection the service wraps.  Distances are the
external index's cosine distances, embedded as rationals supplied by a
distance function parameter. -/

/-- One record of the ChromaDB collection: id, chunk text, embedding vector,
metadata. -/
structure Record where
  id : String
  document : List Char
  embedding : List ℚ
  metadata : Dict
deriving DecidableEq

/-- The backing ChromaDB collection: its name, its configuration metadata
(`{"hnsw:space": "cosine"}`) and its records. -/
structure Collection where
  name : String
  colMetadata : Dict
  records : List Record
deriving DecidableEq

/-- `VectorStoreService.__init__` state: `self.collection` and
`self.initialized` (`self.client` carries no behavior the claims touch). -/
structure VectorStoreState where
  initialized : Bool
  collection : Option Collection
deriving DecidableEq

/-- One formatted result of `VectorStoreService.similarity_search`. -/
structure SearchResult where
  document : List Char
  metadata : Dict
  distance : ℚ
  id : Option String
deriving DecidableEq

/-- Insertion into a list sorted by ascending distance (the order in which
the external index returns nearest neighbours). -/
def insertByDist (x : Record × ℚ) : List (Record × ℚ) → List (Record × ℚ)
  | [] => [x]
  | y :: ys => if x.2 ≤ y.2 then x :: y :: ys else y :: insertByDist x ys

/-- The external collection's `query`: every record with its distance to the
query vector, sorted by ascending distance, truncated to `top_k`. -/
def collectionQuery (dist : List ℚ → List ℚ → ℚ) (recs : List Record)
    (queryEmbedding : List ℚ) (topK : Nat) : List (Record × ℚ) :=
  ((recs.map (fun r => (r, dist queryEmbedding r.embedding))).foldr insertByDist []).take topK

/-- The uninitialized-service guard shared by every operation:
`if not self.initialized or not self.collection`. -/
def VectorStoreService.uninitGuard (st : VectorStoreState) : Bool :=
  !st.initialized || st.collection.isNone

/-- The error every operation raises before `initialize` ran. -/
def vectorStoreNotInitializedMsg : String := "Vector store not initialized"

/-- `VectorStoreService.add_documents`: guard, then `collection.add` with the
four positionally-corresponding lists (records are zipped positionally, as the
external `add` consumes them). -/
def mkRecords : List String → List (List Char) → List (List ℚ) → List Dict → List Record
  | i :: is, d :: ds, e :: es, m :: ms => Record.mk i d e m :: mkRecords is ds es ms
  | _, _, _, _ => []

/-- `VectorStoreService.add_documents`. -/
def VectorStoreService.add_documents (st : VectorStoreState) (documents : List (List Char))
    (embeddings : List (List ℚ)) (metadatas : List Dict) (ids : List String) :
    Except String VectorStoreState :=
  if VectorStoreService.uninitGuard st then .error vectorStoreNotInitializedMsg
  else
    match st.collection with
    | none => .error vectorStoreNotInitializedMsg
    | some col =>
      .ok { st with
        collection := some { col with
          records := col.records ++ mkRecords ids documents embeddings metadatas } }

/-- `VectorStoreService.similarity_search`: guard, query the collection, then
format each match as `{document, metadata, distance, id}`. -/
def VectorStoreService.similarity_search (st : VectorStoreState)
    (dist : List ℚ → List ℚ → ℚ) (query_embedding : List ℚ) (top_k : Nat) :
    Except String (List SearchResult) :=
  if VectorStoreService.uninitGuard st then .error vectorStoreNotInitializedMsg
  else
    match st.collection with
    | none => .error vectorStoreNotInitializedMsg
    | some col =>
      .ok ((collectionQuery dist col.records query_embedding top_k).map
        (fun rd => SearchResult.mk rd.1.document rd.1.metadata rd.2 (some rd.1.id)))

/-- `VectorStoreService.delete_documents`: guard, then `collection.delete(ids)`
(deleting ids that are absent is not an error). -/
def VectorStoreService.delete_documents (st : VectorStoreState) (document_ids : List String) :
    Except String VectorStoreState :=
  if VectorStoreService.uninitGuard st then .error vectorStoreNotInitializedMsg
  else
    match st.collection with
    | none => .error vectorStoreNotInitializedMsg
    | some col =>
      .ok { st with
        collection := some { col with
          records := col.records.filter (fun r => !document_ids.contains r.id) } }

/-- The statistics `VectorStoreService.get_collection_info` reports. -/
structure CollectionInfo where
  name : String
  count : Nat
  colMetadata : Dict
deriving DecidableEq

/-- `VectorStoreService.get_collection_info`: guard, then name, record count
and collection metadata. -/
def VectorStoreService.get_collection_info (st : VectorStoreState) :
    Except String CollectionInfo :=
  if VectorStoreService.uninitGuard st then .error vectorStoreNotInitializedMsg
  else
    match st.collection with
    | none => .error vectorStoreNotInitializedMsg
    | some col => .ok (CollectionInfo.mk col.name col.records.length col.colMetadata)

/-! ## The RAG orchestrator (`rag_service.py`)

`RAGService.query`, `RAGService.add_document` and `RAGService.delete_document`,
with the external collaborators (embedding client, generative model client,
the wall clock, the uuid generator) as parameters.  The orchestrator
auto-initializes on entry, so its state models the initialized service: the
records of the vector store collection plus `self.documents_metadata`. -/

/-- One entry of the `sources` list `RAGService.query` builds. -/
structure SourceEntry where
  document_name : MetaValue
  content : List Char
  relevance_score : ℚ
deriving DecidableEq

/-- The dictionary `RAGService.query` returns. -/
structure QueryResponse where
  answer : String
  sources : List SourceEntry
  context_used : Bool

/-- The fixed insufficient-knowledge answer of the empty-retrieval branch. -/
def insufficientKnowledgeAnswer : String :=
  "I don't have enough information in the knowledge base to answer this question. Please upload relevant documents first."

/-- The generation prompt `RAGService.query` assembles around the context and
the question (the f-string of `rag_service.py`). -/
def ragPrompt (context question : String) : String :=
  "You are a helpful AI assistant for QSS Technosoft. Answer the user's question based on the following context from the company documents.\n\nContext:\n"
    ++ context
    ++ "\n\nQuestion: "
    ++ question
    ++ "\n\nInstructions:\n- First, determine if the question is related to QSS Technosoft, the company's services, products, or business\n- If the question is NOT related to QSS Technosoft (e.g., general knowledge questions, unrelated topics), respond with: \"This question is not related to QSS Technosoft. Please ask questions about our company, services, products, or business operations.\"\n- If the question IS related to QSS Technosoft but the context doesn't have the answer, respond with: \"I don't have specific information about this in the available documents. Please contact QSS Technosoft directly for more details.\"\n- For valid company-related questions with available information:\n  - Provide a direct, clear and concise answer based on the context provided\n  - Format your answer using bullet points (using - or *) when listing multiple items or facts\n  - For single fact answers, you can respond in a sentence without bullets\n  - Do NOT mention sources, source numbers, or where the information came from\n  - Do NOT use phrases like \"according to\", \"mentioned in\", \"as stated in\", or similar references\n  - Answer naturally as if you are stating a fact\n- Maintain a professional and helpful tone\n\nAnswer:"

/-- The loop `for i, result in enumerate(search_results, 1)` of
`RAGService.query`: builds the numbered context parts and the source entries,
in retrieval order. -/
def buildSourcesAndContext : Nat → List SearchResult → List String × List SourceEntry
  | _, [] => ([], [])
  | i, r :: rest =>
    let tail := buildSourcesAndContext (i + 1) rest
    (("[Source " ++ toString i ++ "]: " ++ String.mk r.document) :: tail.1,
      SourceEntry.mk
        ((dget r.metadata "source").getD (MetaValue.str "Unknown"))
        (if r.document.length > 200 then r.document.take 200 ++ ['.', '.', '.'] else r.document)
        (1 - r.distance)
      :: tail.2)

/-- `RAGService.query` from the similarity-search results on: the empty branch
returns the fixed answer, otherwise the prompt is assembled and the generative
model invoked once.  The second component counts the invocations of the
generative model client. -/
def RAGService.query (llm : String → String) (search_results : List SearchResult)
    (question : String) : QueryResponse × Nat :=
  if search_results.isEmpty then
    (QueryResponse.mk insufficientKnowledgeAnswer [] false, 0)
  else
    let built := buildSourcesAndContext 1 search_results
    let context := String.intercalate "\n\n" built.1
    (QueryResponse.mk (llm (ragPrompt context question)) built.2 true, 1)

/-- The output of `document_processor.process_file` (the external text
extractor): text, filename, file type, size. -/
structure DocData where
  text : List Char
  filename : String
  file_type : String
  size : Nat
deriving DecidableEq

/-- The registry of `self.documents_metadata`: a Python dict from document id
to a metadata dict. -/
abbrev Registry := List (String × Dict)

/-- Registry lookup (`self.documents_metadata.get(id)`). -/
def rget (reg : Registry) (k : String) : Option Dict :=
  ((reg.filter (fun p => p.1 = k)).getLast?).map (·.2)

/-- Registry assignment (`self.documents_metadata[id] = v`). -/
def rput (reg : Registry) (k : String) (v : Dict) : Registry :=
  if reg.any (fun p => p.1 = k) then
    reg.map (fun p => if p.1 = k then (k, v) else p)
  else
    reg ++ [(k, v)]

/-- The mutable state `RAGService` operations touch once initialized: the
document processor's cached splitter, the vector store collection's records,
and `self.documents_metadata`. -/
structure RagState where
  text_splitter : Option Splitter
  index : List Record
  documents_metadata : Registry

/-- The per-chunk ids and metadata dicts `RAGService.add_document` builds in
its `for i, chunk in enumerate(chunks)` loop: id `{doc_id}_chunk_{i}` and
`{"source", "document_id", "chunk_index", "total_chunks", "file_type"}` merged
with the caller metadata (which, merged last, overrides). -/
def buildChunkData (docId : String) (docData : DocData) (metadata : Dict) (n : Nat) :
    Nat → List (List Char) → List (String × Dict)
  | _, [] => []
  | i, _chunk :: rest =>
    (docId ++ "_chunk_" ++ toString i,
      [("source", MetaValue.str docData.filename),
       ("document_id", MetaValue.str docId),
       ("chunk_index", MetaValue.int i),
       ("total_chunks", MetaValue.int n),
       ("file_type", MetaValue.str docData.file_type)] ++ metadata)
      :: buildChunkData docId docData metadata n (i + 1) rest

/-- The error `RAGService.add_document` raises when chunking yields nothing. -/
def noTextContentMsg : String := "No text content could be extracted from the document"

/-- `RAGService.add_document` after `process_file`: chunk, fail on zero chunks,
embed the chunks in one batch (`embed`, the external embedding client), write
the batch of records to the vector store, then register the document.
`docId` is the generated uuid, `uploadDate` the wall clock reading.  The state
is returned in both outcomes (a failed call still leaves the splitter cache
updated, as in the source). -/
def RAGService.add_document (st : RagState) (docData : DocData) (metadata : Dict)
    (cs co : Nat) (docId : String) (uploadDate : String)
    (embed : List (List Char) → List (List ℚ)) : RagState × Except String String :=
  let chunked := DocumentProcessor.chunk_text st.text_splitter docData.text cs co
  let chunks := chunked.2
  let st := { st with text_splitter := chunked.1 }
  if chunks.isEmpty then
    (st, .error noTextContentMsg)
  else
    let chunk_embeddings := embed chunks
    let chunkData := buildChunkData docId docData metadata chunks.length 0 chunks
    let chunk_ids := chunkData.map (·.1)
    let chunk_metadatas := chunkData.map (·.2)
    let st := { st with index := st.index ++ mkRecords chunk_ids chunks chunk_embeddings chunk_metadatas }
    let regEntry : Dict :=
      [("id", MetaValue.str docId),
       ("filename", MetaValue.str docData.filename),
       ("file_type", MetaValue.str docData.file_type),
       ("size", MetaValue.int docData.size),
       ("upload_date", MetaValue.str uploadDate),
       ("chunks_count", MetaValue.int chunks.length)] ++ metadata
    let st := { st with documents_metadata := rput st.documents_metadata docId regEntry }
    (st, .ok docId)

/-- `RAGService.delete_document`: resolve the chunk ids of the document via
`collection.get(where={"document_id": document_id})`, delete them if any were
found, then drop the registry entry if present. -/
def RAGService.delete_document (st : RagState) (document_id : String) : RagState :=
  let matching := st.index.filter
    (fun r => dget r.metadata "document_id" = some (MetaValue.str document_id))
  let ids := matching.map (·.id)
  let st :=
    if ids.length > 0 then
      { st with index := st.index.filter (fun r => !ids.contains r.id) }
    else st
  { st with documents_metadata := st.documents_metadata.filter (fun p => !(p.1 == document_id)) }

/-! ## Helper lemmas -/

/-- The splitter `chunk_text` uses always carries the requested parameters, so
the chunks only depend on `(text, chunk_size, chunk_overlap)`. -/
theorem chunk_text_snd (cache : Option Splitter) (text : List Char) (cs co : Nat) :
    (DocumentProcessor.chunk_text cache text cs co).2 = splitTextTop text cs co := by
  unfold DocumentProcessor.chunk_text
  cases cache with
  | none => rfl
  | some sp =>
    by_cases h : sp.chunk_size ≠ cs ∨ sp.chunk_overlap ≠ co
    · simp [h]
    · push_neg at h
      simp [h.1, h.2]

/-- The source-entry list built by the query loop, as a map over the results
(independently of the enumeration counter). -/
theorem buildSourcesAndContext_snd (results : List SearchResult) : ∀ i,
    (buildSourcesAndContext i results).2 = results.map (fun r =>
      SourceEntry.mk
        ((dget r.metadata "source").getD (MetaValue.str "Unknown"))
        (if r.document.length > 200 then r.document.take 200 ++ ['.', '.', '.'] else r.document)
        (1 - r.distance)) := by
  induction results with
  | nil => intro i; rfl
  | cons r rest ih => intro i; simp [buildSourcesAndContext, ih (i + 1)]

/-- The sources `RAGService.query` returns on a non-empty retrieval, one entry
per retrieved chunk in retrieval order. -/
theorem query_sources (llm : String → String) (results : List SearchResult)
    (question : String) (h : results ≠ []) :
    (RAGService.query llm results question).1.sources = results.map (fun r =>
      SourceEntry.mk
        ((dget r.metadata "source").getD (MetaValue.str "Unknown"))
        (if r.document.length > 200 then r.document.take 200 ++ ['.', '.', '.'] else r.document)
        (1 - r.distance)) := by
  unfold RAGService.query
  simp [List.isEmpty_iff, h, buildSourcesAndContext_snd]

/-! ## Claim C1: empty retrieval short-circuits the query -/

/-- C1: when the vector-index retrieval is empty, `RAGService.query` returns
the fixed insufficient-knowledge answer, an empty sources list and
`context_used = false`, and the generative model client is invoked zero
times. -/
theorem rag_query_empty_retrieval (llm : String → String) (question : String)
    (results : List SearchResult) (h : results = []) :
    RAGService.query llm results question
      = (QueryResponse.mk insufficientKnowledgeAnswer [] false, 0) := by
  subst h
  rfl

/-- Witness for C1 at a concrete generative client and question. -/
theorem rag_query_empty_retrieval_witness :
    RAGService.query (fun _ => "generated") [] "What does QSS do?"
      = (QueryResponse.mk insufficientKnowledgeAnswer [] false, 0) :=
  rag_query_empty_retrieval (fun _ => "generated") "What does QSS do?" [] rfl

/-! ## Claim C2: relevance scores are `1 - distance`, non-increasing in rank -/

/-- C2: on a non-empty retrieval whose results are ordered by ascending
distance, every source's relevance score is exactly `1 - distance`, and the
scores are non-increasing in retrieval rank order. -/
theorem rag_query_relevance_scores (llm : String → String) (results : List SearchResult)
    (question : String) (h : results ≠ [])
    (hsorted : results.Pairwise (fun a b => a.distance ≤ b.distance)) :
    ((RAGService.query llm results question).1.sources.map (·.relevance_score))
        = results.map (fun r => 1 - r.distance)
      ∧ ((RAGService.query llm results question).1.sources.map
          (·.relevance_score)).Pairwise (fun a b => b ≤ a) := by
  have hs := query_sources llm results question h
  rw [hs, List.map_map]
  constructor
  · rfl
  · rw [List.pairwise_map]
    exact hsorted.imp (fun hab => by dsimp only [Function.comp]; linarith)

/-- Witness for C2: three results at distances `1/10, 3/10, 5/10` give scores
`9/10, 7/10, 5/10`, non-increasing. -/
theorem rag_query_relevance_scores_witness :
    (((RAGService.query (fun _ => "") [SearchResult.mk ['a'] [] (1/10) none,
          SearchResult.mk ['b'] [] (3/10) none, SearchResult.mk ['c'] [] (5/10) none]
        "q").1.sources.map (·.relevance_score))
        = [SearchResult.mk ['a'] [] (1/10) none, SearchResult.mk ['b'] [] (3/10) none,
            SearchResult.mk ['c'] [] (5/10) none].map (fun r => 1 - r.distance)
      ∧ (((RAGService.query (fun _ => "") [SearchResult.mk ['a'] [] (1/10) none,
            SearchResult.mk ['b'] [] (3/10) none, SearchResult.mk ['c'] [] (5/10) none]
          "q").1.sources.map (·.relevance_score)).Pairwise (fun a b => b ≤ a)))
      ∧ [SearchResult.mk ['a'] [] (1/10) none, SearchResult.mk ['b'] [] (3/10) none,
          SearchResult.mk ['c'] [] (5/10) none].map (fun r => 1 - r.distance)
          = [9/10, 7/10, 5/10] :=
  ⟨rag_query_relevance_scores (fun _ => "") _ "q" (by decide) (by with_unfolding_all decide),
    by with_unfolding_all decide⟩

/-! ## Claim C6: the shape of the sources list -/

/-- C6: on a non-empty retrieval the sources list has one entry per retrieved
chunk in retrieval order; `document_name` is the metadata's `source` value
(defaulting to `"Unknown"`), and the content preview is the chunk text, or its
first 200 characters followed by an ellipsis marker when longer than 200. -/
theorem rag_query_sources_shape (llm : String → String) (results : List SearchResult)
    (question : String) (h : results ≠ []) :
    (RAGService.query llm results question).1.sources = results.map (fun r =>
        SourceEntry.mk
          ((dget r.metadata "source").getD (MetaValue.str "Unknown"))
          (if r.document.length > 200 then r.document.take 200 ++ ['.', '.', '.'] else r.document)
          (1 - r.distance))
      ∧ (RAGService.query llm results question).1.sources.length = results.length := by
  have hs := query_sources llm results question h
  exact ⟨hs, by rw [hs, List.length_map]⟩

set_option maxRecDepth 8000 in
/-- Witness for C6: one short chunk (kept verbatim, named from its `source`
metadata), one 250-character chunk (truncated to 200 plus ellipsis) and one
chunk without `source` metadata (named `"Unknown"`). -/
theorem rag_query_sources_shape_witness :
    ((RAGService.query (fun _ => "") [
          SearchResult.mk ['h', 'i'] [("source", MetaValue.str "policy.txt")] (1/10) none,
          SearchResult.mk (List.replicate 250 'a') [("source", MetaValue.str "long.txt")] (2/10) none,
          SearchResult.mk ['z'] [] (3/10) none] "q").1.sources
        = [SearchResult.mk ['h', 'i'] [("source", MetaValue.str "policy.txt")] (1/10) none,
            SearchResult.mk (List.replicate 250 'a') [("source", MetaValue.str "long.txt")] (2/10) none,
            SearchResult.mk ['z'] [] (3/10) none].map (fun r =>
            SourceEntry.mk
              ((dget r.metadata "source").getD (MetaValue.str "Unknown"))
              (if r.document.length > 200 then r.document.take 200 ++ ['.', '.', '.'] else r.document)
              (1 - r.distance))
        ∧ (RAGService.query (fun _ => "") [
            SearchResult.mk ['h', 'i'] [("source", MetaValue.str "policy.txt")] (1/10) none,
            SearchResult.mk (List.replicate 250 'a') [("source", MetaValue.str "long.txt")] (2/10) none,
            SearchResult.mk ['z'] [] (3/10) none] "q").1.sources.length = 3)
      ∧ (RAGService.query (fun _ => "") [
          SearchResult.mk ['h', 'i'] [("source", MetaValue.str "policy.txt")] (1/10) none,
          SearchResult.mk (List.replicate 250 'a') [("source", MetaValue.str "long.txt")] (2/10) none,
          SearchResult.mk ['z'] [] (3/10) none] "q").1.sources.map (·.content)
          = [['h', 'i'], List.replicate 200 'a' ++ ['.', '.', '.'], ['z']] :=
  ⟨rag_query_sources_shape (fun _ => "") _ "q" (by decide), by decide⟩

/-! ## Claim C7: chunking is deterministic -/

/-- C7: `DocumentProcessor.chunk_text` returns identical chunk sequences for
identical `(text, chunk_size, chunk_overlap)` regardless of the splitter the
processor has cached — so interleaved calls with other parameters cannot change
the output. -/
theorem chunk_text_deterministic (cache₁ cache₂ : Option Splitter) (text : List Char)
    (cs co : Nat) :
    (DocumentProcessor.chunk_text cache₁ text cs co).2
      = (DocumentProcessor.chunk_text cache₂ text cs co).2 := by
  rw [chunk_text_snd, chunk_text_snd]

/-- A key absent from the overriding dict falls through to the base dict in a
merge. -/
theorem dget_append_right_none {m : Dict} {k : String} (h : dget m k = none) (b : Dict) :
    dget (b ++ m) k = dget b k := by
  unfold dget at *
  rw [List.filter_append, List.getLast?_append]
  cases hm : (m.filter (fun p => p.1 = k)).getLast? with
  | none => simp [hm]
  | some p => simp [hm] at h

/-- A key present in the overriding dict wins in a merge. -/
theorem dget_append_right_some {m : Dict} {k : String} {v : MetaValue}
    (h : dget m k = some v) (b : Dict) : dget (b ++ m) k = some v := by
  unfold dget at *
  rw [List.filter_append, List.getLast?_append]
  cases hm : (m.filter (fun p => p.1 = k)).getLast? with
  | none => simp [hm] at h
  | some p => simpa [hm] using h

/-- Replacing every binding of `k` in a registry, restricted to the bindings
of `k`, yields constant `(k, v)` bindings. -/
theorem filter_map_replace (reg : Registry) (k : String) (v : Dict) :
    (reg.map (fun p => if p.1 = k then (k, v) else p)).filter (fun p => p.1 = k)
      = (reg.filter (fun p => p.1 = k)).map (fun _ => (k, v)) := by
  induction reg with
  | nil => rfl
  | cons q qs ih =>
    by_cases hq : q.1 = k
    · simp [List.filter_cons, hq, ih]
    · simp [List.filter_cons, hq, ih]

/-- Registry assignment followed by lookup of the same key. -/
theorem rget_rput_self (reg : Registry) (k : String) (v : Dict) :
    rget (rput reg k v) k = some v := by
  unfold rget rput
  cases hb : reg.any (fun p => p.1 = k) with
  | true =>
    rw [if_pos rfl, filter_map_replace]
    have hne : reg.filter (fun p => p.1 = k) ≠ [] := by
      rw [List.any_eq_true] at hb
      obtain ⟨p, hp, hpk⟩ := hb
      exact List.ne_nil_of_mem (List.mem_filter.mpr ⟨hp, hpk⟩)
    rw [List.getLast?_eq_head?_reverse, ← List.map_reverse]
    cases hr : (reg.filter (fun p => p.1 = k)).reverse with
    | nil => exact absurd (List.reverse_eq_nil_iff.mp hr) hne
    | cons a as => simp [hr]
  | false =>
    rw [if_neg Bool.false_ne_true, List.filter_append, List.getLast?_append]
    have hnil : reg.filter (fun p => p.1 = k) = [] := by
      rw [List.filter_eq_nil_iff]
      intro p hp hpk
      have : reg.any (fun p => p.1 = k) = true := List.any_eq_true.mpr ⟨p, hp, hpk⟩
      rw [hb] at this
      exact Bool.false_ne_true this
    simp [hnil]

/-- Every record the batched add builds carries one of the supplied metadata
dicts. -/
theorem mkRecords_metadata_mem :
    ∀ (ids : List String) (docs : List (List Char)) (embs : List (List ℚ)) (metas : List Dict)
      (r : Record), r ∈ mkRecords ids docs embs metas → r.metadata ∈ metas := by
  intro ids
  induction ids with
  | nil => intro docs embs metas r h; simp [mkRecords] at h
  | cons i is ih =>
    intro docs embs metas r h
    cases docs with
    | nil => simp [mkRecords] at h
    | cons d ds =>
      cases embs with
      | nil => simp [mkRecords] at h
      | cons e es =>
        cases metas with
        | nil => simp [mkRecords] at h
        | cons m ms =>
          simp only [mkRecords, List.mem_cons] at h
          rcases h with h | h
          · subst h; exact List.mem_cons_self _ _
          · exact List.mem_cons_of_mem _ (ih ds es ms r h)

/-- With positionally corresponding inputs, the batched add keeps ids and
metadata in order. -/
theorem mkRecords_maps :
    ∀ (ids : List String) (docs : List (List Char)) (embs : List (List ℚ)) (metas : List Dict),
      ids.length = docs.length → docs.length = embs.length → embs.length = metas.length →
      (mkRecords ids docs embs metas).map (·.id) = ids
        ∧ (mkRecords ids docs embs metas).map (·.metadata) = metas := by
  intro ids
  induction ids with
  | nil =>
    intro docs embs metas h1 h2 h3
    have hd : docs = [] := List.eq_nil_of_length_eq_zero h1.symm
    subst hd
    have he : embs = [] := List.eq_nil_of_length_eq_zero h2.symm
    subst he
    have hm : metas = [] := List.eq_nil_of_length_eq_zero h3.symm
    subst hm
    simp [mkRecords]
  | cons i is ih =>
    intro docs embs metas h1 h2 h3
    cases docs with
    | nil => simp at h1
    | cons d ds =>
      cases embs with
      | nil => simp at h2
      | cons e es =>
        cases metas with
        | nil => simp at h3
        | cons m ms =>
          simp only [List.length_cons, Nat.succ.injEq] at h1 h2 h3
          obtain ⟨hid, hmeta⟩ := ih ds es ms h1 h2 h3
          simp [mkRecords, hid, hmeta]

/-- The chunk-metadata loop produces one entry per chunk. -/
theorem buildChunkData_length (docId : String) (docData : DocData) (metadata : Dict) (n : Nat) :
    ∀ (i : Nat) (chunks : List (List Char)),
      (buildChunkData docId docData metadata n i chunks).length = chunks.length := by
  intro i chunks
  induction chunks generalizing i with
  | nil => rfl
  | cons c cs ih => simp [buildChunkData, ih]

/-- The chunk ids the loop derives: `{doc_id}_chunk_{i}` for consecutive
indices. -/
theorem buildChunkData_map_fst (docId : String) (docData : DocData) (metadata : Dict) (n : Nat) :
    ∀ (i : Nat) (chunks : List (List Char)),
      (buildChunkData docId docData metadata n i chunks).map (·.1)
        = (List.range' i chunks.length).map (fun j => docId ++ "_chunk_" ++ toString j) := by
  intro i chunks
  induction chunks generalizing i with
  | nil => rfl
  | cons c cs ih => simp [buildChunkData, List.range'_succ, ih]

/-- Every metadata dict the loop builds is a system dict merged with the
caller metadata. -/
theorem buildChunkData_snd_shape (docId : String) (docData : DocData) (metadata : Dict) (n : Nat) :
    ∀ (i : Nat) (chunks : List (List Char)) (md : Dict),
      md ∈ (buildChunkData docId docData metadata n i chunks).map (·.2) →
      ∃ b : Dict, md = b ++ metadata := by
  intro i chunks
  induction chunks generalizing i with
  | nil => intro md h; simp [buildChunkData] at h
  | cons c cs ih =>
    intro md h
    simp only [buildChunkData, List.map_cons, List.mem_cons] at h
    rcases h with h | h
    · exact ⟨_, h⟩
    · exact ih (i + 1) md h

/-- The `chunk_index` values the loop stores when the caller metadata does not
override them: consecutive indices. -/
theorem buildChunkData_map_chunk_index (docId : String) (docData : DocData) (metadata : Dict)
    (n : Nat) (hm : dget metadata "chunk_index" = none) :
    ∀ (i : Nat) (chunks : List (List Char)),
      (buildChunkData docId docData metadata n i chunks).map (fun p => dget p.2 "chunk_index")
        = (List.range' i chunks.length).map (fun j : Nat => some (MetaValue.int j)) := by
  intro i chunks
  induction chunks generalizing i with
  | nil => rfl
  | cons c cs ih =>
    simp only [buildChunkData, List.map_cons, List.length_cons, ih (i + 1)]
    rw [dget_append_right_none hm, List.range'_succ]
    simp [dget]

/-- The `total_chunks` values the loop stores when the caller metadata does not
override them: the constant `n`. -/
theorem buildChunkData_map_total_chunks (docId : String) (docData : DocData) (metadata : Dict)
    (n : Nat) (hm : dget metadata "total_chunks" = none) :
    ∀ (i : Nat) (chunks : List (List Char)),
      (buildChunkData docId docData metadata n i chunks).map (fun p => dget p.2 "total_chunks")
        = List.replicate chunks.length (some (MetaValue.int n)) := by
  intro i chunks
  induction chunks generalizing i with
  | nil => rfl
  | cons c cs ih =>
    simp only [buildChunkData, List.map_cons, List.length_cons, List.replicate_succ, ih (i + 1)]
    rw [dget_append_right_none hm]
    simp [dget]

/-! ## Claim C3: zero chunks fail ingestion with no store writes -/

/-- C3: when chunking yields zero chunks, `RAGService.add_document` fails with
the validation error, and neither the vector index nor the document registry
has been written (the error is raised before the document id is even
generated). -/
theorem rag_add_document_zero_chunks (st : RagState) (docData : DocData) (metadata : Dict)
    (cs co : Nat) (docId uploadDate : String) (embed : List (List Char) → List (List ℚ))
    (h : splitTextTop docData.text cs co = []) :
    (RAGService.add_document st docData metadata cs co docId uploadDate embed).2
        = Except.error noTextContentMsg
      ∧ (RAGService.add_document st docData metadata cs co docId uploadDate embed).1.index
        = st.index
      ∧ (RAGService.add_document st docData metadata cs co docId uploadDate embed).1.documents_metadata
        = st.documents_metadata := by
  have hc : (DocumentProcessor.chunk_text st.text_splitter docData.text cs co).2.isEmpty = true := by
    rw [chunk_text_snd, h]
    rfl
  refine ⟨?_, ?_, ?_⟩ <;> simp [RAGService.add_document, hc]

/-- Witness for C3: ingesting an empty text fails and writes nothing. -/
theorem rag_add_document_zero_chunks_witness :
    (RAGService.add_document (RagState.mk none [] []) (DocData.mk [] "e.txt" ".txt" 0) []
        1000 200 "gen-id" "2026-01-01" (fun l => l.map (fun _ => []))).2
        = Except.error noTextContentMsg
      ∧ (RAGService.add_document (RagState.mk none [] []) (DocData.mk [] "e.txt" ".txt" 0) []
          1000 200 "gen-id" "2026-01-01" (fun l => l.map (fun _ => []))).1.index
        = (RagState.mk none [] []).index
      ∧ (RAGService.add_document (RagState.mk none [] []) (DocData.mk [] "e.txt" ".txt" 0) []
          1000 200 "gen-id" "2026-01-01" (fun l => l.map (fun _ => []))).1.documents_metadata
        = (RagState.mk none [] []).documents_metadata :=
  rag_add_document_zero_chunks (RagState.mk none [] []) (DocData.mk [] "e.txt" ".txt" 0) []
    1000 200 "gen-id" "2026-01-01" (fun l => l.map (fun _ => [])) (by decide)

/-! ## Claim C5: deletion completeness and idempotence -/

/-- C5: `RAGService.delete_document` resolves the chunk ids through the
`document_id` metadata filter and succeeds whether or not chunks were found;
afterwards the filter matches no record and the registry lookup reports the
document absent. -/
theorem rag_delete_document_complete (st : RagState) (document_id : String) :
    (RAGService.delete_document st document_id).index.filter
        (fun r => dget r.metadata "document_id" = some (MetaValue.str document_id)) = []
      ∧ rget (RAGService.delete_document st document_id).documents_metadata document_id
        = none := by
  constructor
  · simp only [RAGService.delete_document]
    split_ifs with hif
    · rw [List.filter_eq_nil_iff]
      intro r hr hd
      rcases List.mem_filter.mp hr with ⟨hmem, hnc⟩
      have hrm : r ∈ st.index.filter
          (fun r => dget r.metadata "document_id" = some (MetaValue.str document_id)) :=
        List.mem_filter.mpr ⟨hmem, hd⟩
      have hid : r.id ∈ (st.index.filter
          (fun r => dget r.metadata "document_id" = some (MetaValue.str document_id))).map
            (·.id) :=
        List.mem_map.mpr ⟨r, hrm, rfl⟩
      have htrue : ((st.index.filter
          (fun r => dget r.metadata "document_id" = some (MetaValue.str document_id))).map
            (·.id)).contains r.id = true := List.elem_iff.mpr hid
      rw [htrue] at hnc
      simp at hnc
    · push_neg at hif
      have : ((st.index.filter
            (fun r => dget r.metadata "document_id" = some (MetaValue.str document_id))).map
              (·.id)).length = 0 := Nat.le_zero.mp hif
      rw [List.length_map] at this
      exact List.eq_nil_of_length_eq_zero this
  · simp only [RAGService.delete_document]
    unfold rget
    have hnil : ∀ (reg : Registry),
        ((reg.filter (fun p => !(p.1 == document_id))).filter
          (fun p => p.1 = document_id)) = [] := by
      intro reg
      rw [List.filter_eq_nil_iff]
      intro p hp hpk
      rcases List.mem_filter.mp hp with ⟨_, hne⟩
      rw [decide_eq_true_eq] at hpk
      simp [hpk] at hne
    split_ifs <;> simp [hnil]

/-! ## Claim C9: vector-store operations fail before initialization -/

/-- C9: every access-layer operation — add, similarity search, delete,
collection statistics — invoked while `initialized` is false returns the
"not initialized" error instead of acting (no successor state, no result is
produced). -/
theorem vector_store_uninitialized_ops (st : VectorStoreState) (h : st.initialized = false)
    (documents : List (List Char)) (embeddings : List (List ℚ)) (metadatas : List Dict)
    (ids : List String) (dist : List ℚ → List ℚ → ℚ) (query_embedding : List ℚ)
    (top_k : Nat) (document_ids : List String) :
    VectorStoreService.add_documents st documents embeddings metadatas ids
        = Except.error vectorStoreNotInitializedMsg
      ∧ VectorStoreService.similarity_search st dist query_embedding top_k
        = Except.error vectorStoreNotInitializedMsg
      ∧ VectorStoreService.delete_documents st document_ids
        = Except.error vectorStoreNotInitializedMsg
      ∧ VectorStoreService.get_collection_info st
        = Except.error vectorStoreNotInitializedMsg := by
  have hg : VectorStoreService.uninitGuard st = true := by
    simp [VectorStoreService.uninitGuard, h]
  refine ⟨?_, ?_, ?_, ?_⟩ <;>
    simp [VectorStoreService.add_documents, VectorStoreService.similarity_search,
      VectorStoreService.delete_documents, VectorStoreService.get_collection_info, hg]

/-- Witness for C9 at the freshly-constructed (never-initialized) service
state. -/
theorem vector_store_uninitialized_ops_witness :
    VectorStoreService.add_documents (VectorStoreState.mk false none) [['a']] [[1]] [[]] ["i1"]
        = Except.error vectorStoreNotInitializedMsg
      ∧ VectorStoreService.similarity_search (VectorStoreState.mk false none)
          (fun _ _ => 0) [1] 5
        = Except.error vectorStoreNotInitializedMsg
      ∧ VectorStoreService.delete_documents (VectorStoreState.mk false none) ["i1"]
        = Except.error vectorStoreNotInitializedMsg
      ∧ VectorStoreService.get_collection_info (VectorStoreState.mk false none)
        = Except.error vectorStoreNotInitializedMsg :=
  vector_store_uninitialized_ops (VectorStoreState.mk false none) rfl [['a']] [[1]] [[]] ["i1"]
    (fun _ _ => 0) [1] 5 ["i1"]

/-! ## Claim C10: caller metadata overrides the system-generated keys -/

/-- C10: because the caller metadata is merged after the system keys, any key
the caller supplies — `document_id` included — overrides the system-generated
value in every chunk-metadata record the ingestion stores. -/
theorem rag_add_document_caller_metadata_override (st : RagState) (docData : DocData)
    (metadata : Dict) (cs co : Nat) (docId uploadDate : String)
    (embed : List (List Char) → List (List ℚ)) (k : String) (v : MetaValue)
    (hk : dget metadata k = some v) :
    ∀ r ∈ (RAGService.add_document st docData metadata cs co docId uploadDate embed).1.index.drop
        st.index.length,
      dget r.metadata k = some v := by
  intro r hr
  by_cases hc : (DocumentProcessor.chunk_text st.text_splitter docData.text cs co).2.isEmpty
  · simp [RAGService.add_document, hc, List.drop_length] at hr
  · simp only [RAGService.add_document, hc, Bool.false_eq_true, if_false] at hr
    rw [List.drop_left] at hr
    have hmeta := mkRecords_metadata_mem _ _ _ _ r hr
    have hmem : r.metadata ∈ (buildChunkData docId docData metadata
        (DocumentProcessor.chunk_text st.text_splitter docData.text cs co).2.length 0
        (DocumentProcessor.chunk_text st.text_splitter docData.text cs co).2).map (·.2) := by
      simpa using hmeta
    obtain ⟨b, hb⟩ := buildChunkData_snd_shape _ _ _ _ _ _ _ hmem
    rw [hb]
    exact dget_append_right_some hk b

/-- Witness for C10: a caller-supplied `document_id` replaces the generated id
in the stored chunk metadata. -/
theorem rag_add_document_caller_metadata_override_witness :
    (∀ r ∈ (RAGService.add_document (RagState.mk none [] [])
        (DocData.mk ['h', 'i'] "f.txt" ".txt" 2) [("document_id", MetaValue.str "caller-id")]
        1000 200 "gen-id" "2026-01-01" (fun l => l.map (fun _ => []))).1.index.drop 0,
      dget r.metadata "document_id" = some (MetaValue.str "caller-id"))
      ∧ (RAGService.add_document (RagState.mk none [] [])
          (DocData.mk ['h', 'i'] "f.txt" ".txt" 2) [("document_id", MetaValue.str "caller-id")]
          1000 200 "gen-id" "2026-01-01" (fun l => l.map (fun _ => []))).1.index.map
            (fun r => dget r.metadata "document_id")
        = [some (MetaValue.str "caller-id")] :=
  ⟨rag_add_document_caller_metadata_override (RagState.mk none [] [])
      (DocData.mk ['h', 'i'] "f.txt" ".txt" 2) [("document_id", MetaValue.str "caller-id")]
      1000 200 "gen-id" "2026-01-01" (fun l => l.map (fun _ => [])) "document_id"
      (MetaValue.str "caller-id") rfl,
    by decide⟩


/-- Restating a per-record metadata lookup as a lookup over the projected
metadata list. -/
theorem map_dget_metadata (l : List Record) (k : String) :
    (l.map (·.metadata)).map (fun m => dget m k) = l.map (fun r => dget r.metadata k) := by
  rw [List.map_map]
  rfl

/-- Restating a lookup over projected dicts as a lookup over the pairs. -/
theorem map_dget_snd (l : List (String × Dict)) (k : String) :
    (l.map (·.2)).map (fun m => dget m k) = l.map (fun p => dget p.2 k) := by
  rw [List.map_map]
  rfl

/-! ## Claim C4: chunk ids, per-chunk metadata and registry chunk count -/

/-- C4 is false exactly as stated: a successful ingestion whose caller
metadata itself contains `chunk_index` stores the caller\'s value (here 99) in
every chunk record, not the sequence index 0, because the caller metadata is
merged last. -/
theorem rag_add_document_chunk_index_cex :
    (RAGService.add_document (RagState.mk none [] [])
        (DocData.mk ['h', 'i'] "f.txt" ".txt" 2) [("chunk_index", MetaValue.int 99)]
        1000 200 "gen-id" "2026-01-01" (fun l => l.map (fun _ => []))).2 = Except.ok "gen-id"
      ∧ (RAGService.add_document (RagState.mk none [] [])
          (DocData.mk ['h', 'i'] "f.txt" ".txt" 2) [("chunk_index", MetaValue.int 99)]
          1000 200 "gen-id" "2026-01-01" (fun l => l.map (fun _ => []))).1.index.map
            (fun r => dget r.metadata "chunk_index")
        = [some (MetaValue.int 99)]
      ∧ some (MetaValue.int 99) ≠ some (MetaValue.int 0) :=
  ⟨by decide, by decide, by decide⟩

/-- C4 (amended): for a successful ingestion of `n` chunks whose caller
metadata does not itself carry the `chunk_index`, `total_chunks` or
`chunks_count` keys, the `i`-th stored chunk has id `{document_id}_chunk_{i}`,
metadata `chunk_index = i` and `total_chunks = n` (so the sequence indices are
exactly the contiguous range `[0, n)`), and the registered document\'s
`chunks_count` equals `n`. -/
theorem rag_add_document_chunk_invariants (st : RagState) (docData : DocData)
    (metadata : Dict) (cs co : Nat) (docId uploadDate : String)
    (embed : List (List Char) → List (List ℚ))
    (hchunks : splitTextTop docData.text cs co ≠ [])
    (hembed : (embed (splitTextTop docData.text cs co)).length
      = (splitTextTop docData.text cs co).length)
    (hm1 : dget metadata "chunk_index" = none)
    (hm2 : dget metadata "total_chunks" = none)
    (hm3 : dget metadata "chunks_count" = none) :
    (RAGService.add_document st docData metadata cs co docId uploadDate embed).2
        = Except.ok docId
      ∧ ((RAGService.add_document st docData metadata cs co docId uploadDate embed).1.index.drop
          st.index.length).map (·.id)
        = (List.range' 0 (splitTextTop docData.text cs co).length).map
            (fun i => docId ++ "_chunk_" ++ toString i)
      ∧ ((RAGService.add_document st docData metadata cs co docId uploadDate embed).1.index.drop
          st.index.length).map (fun r => dget r.metadata "chunk_index")
        = (List.range' 0 (splitTextTop docData.text cs co).length).map
            (fun i : Nat => some (MetaValue.int i))
      ∧ ((RAGService.add_document st docData metadata cs co docId uploadDate embed).1.index.drop
          st.index.length).map (fun r => dget r.metadata "total_chunks")
        = List.replicate (splitTextTop docData.text cs co).length
            (some (MetaValue.int (splitTextTop docData.text cs co).length))
      ∧ ((rget (RAGService.add_document st docData metadata cs co docId uploadDate
            embed).1.documents_metadata docId).map (fun d => dget d "chunks_count"))
        = some (some (MetaValue.int (splitTextTop docData.text cs co).length)) := by
  have hc : (splitTextTop docData.text cs co).isEmpty = false := by
    simpa [List.isEmpty_iff] using hchunks
  simp only [RAGService.add_document, chunk_text_snd, hc, Bool.false_eq_true, if_false]
  have hlen := buildChunkData_length docId docData metadata
    (splitTextTop docData.text cs co).length 0 (splitTextTop docData.text cs co)
  have hmk := mkRecords_maps
    ((buildChunkData docId docData metadata (splitTextTop docData.text cs co).length 0
        (splitTextTop docData.text cs co)).map (·.1))
    (splitTextTop docData.text cs co)
    (embed (splitTextTop docData.text cs co))
    ((buildChunkData docId docData metadata (splitTextTop docData.text cs co).length 0
        (splitTextTop docData.text cs co)).map (·.2))
    (by rw [List.length_map, hlen])
    hembed.symm
    (by rw [List.length_map, hlen, hembed])
  refine ⟨trivial, ?_, ?_, ?_, ?_⟩
  · rw [List.drop_left, hmk.1, buildChunkData_map_fst]
  · rw [List.drop_left, ← map_dget_metadata, hmk.2, map_dget_snd,
      buildChunkData_map_chunk_index docId docData metadata _ hm1]
  · rw [List.drop_left, ← map_dget_metadata, hmk.2, map_dget_snd,
      buildChunkData_map_total_chunks docId docData metadata _ hm2]
  · rw [rget_rput_self, Option.map_some', dget_append_right_none hm3]
    simp [dget]

/-- Witness for C4 (amended): `"ab cd"` with `chunk_size = 4`,
`chunk_overlap = 1` splits into two chunks; ids, `chunk_index`,
`total_chunks` and the registry count come out as stated. -/
theorem rag_add_document_chunk_invariants_witness :
    ((RAGService.add_document (RagState.mk none [] [])
        (DocData.mk ['a', 'b', ' ', 'c', 'd'] "f.txt" ".txt" 5)
        [("category", MetaValue.str "policy")] 4 1 "gen-id" "2026-01-01"
        (fun l => l.map (fun _ => []))).2 = Except.ok "gen-id"
      ∧ ((RAGService.add_document (RagState.mk none [] [])
          (DocData.mk ['a', 'b', ' ', 'c', 'd'] "f.txt" ".txt" 5)
          [("category", MetaValue.str "policy")] 4 1 "gen-id" "2026-01-01"
          (fun l => l.map (fun _ => []))).1.index.drop
            (RagState.mk none [] []).index.length).map (·.id)
        = (List.range' 0 (splitTextTop ['a', 'b', ' ', 'c', 'd'] 4 1).length).map
            (fun i => "gen-id" ++ "_chunk_" ++ toString i)
      ∧ ((RAGService.add_document (RagState.mk none [] [])
          (DocData.mk ['a', 'b', ' ', 'c', 'd'] "f.txt" ".txt" 5)
          [("category", MetaValue.str "policy")] 4 1 "gen-id" "2026-01-01"
          (fun l => l.map (fun _ => []))).1.index.drop
            (RagState.mk none [] []).index.length).map (fun r => dget r.metadata "chunk_index")
        = (List.range' 0 (splitTextTop ['a', 'b', ' ', 'c', 'd'] 4 1).length).map
            (fun i : Nat => some (MetaValue.int i))
      ∧ ((RAGService.add_document (RagState.mk none [] [])
          (DocData.mk ['a', 'b', ' ', 'c', 'd'] "f.txt" ".txt" 5)
          [("category", MetaValue.str "policy")] 4 1 "gen-id" "2026-01-01"
          (fun l => l.map (fun _ => []))).1.index.drop
            (RagState.mk none [] []).index.length).map (fun r => dget r.metadata "total_chunks")
        = List.replicate (splitTextTop ['a', 'b', ' ', 'c', 'd'] 4 1).length
            (some (MetaValue.int (splitTextTop ['a', 'b', ' ', 'c', 'd'] 4 1).length))
      ∧ ((rget (RAGService.add_document (RagState.mk none [] [])
            (DocData.mk ['a', 'b', ' ', 'c', 'd'] "f.txt" ".txt" 5)
            [("category", MetaValue.str "policy")] 4 1 "gen-id" "2026-01-01"
            (fun l => l.map (fun _ => []))).1.documents_metadata "gen-id").map
              (fun d => dget d "chunks_count"))
        = some (some (MetaValue.int (splitTextTop ['a', 'b', ' ', 'c', 'd'] 4 1).length)))
      ∧ (splitTextTop ['a', 'b', ' ', 'c', 'd'] 4 1).length = 2 :=
  ⟨rag_add_document_chunk_invariants (RagState.mk none [] [])
      (DocData.mk ['a', 'b', ' ', 'c', 'd'] "f.txt" ".txt" 5)
      [("category", MetaValue.str "policy")] 4 1 "gen-id" "2026-01-01"
      (fun l => l.map (fun _ => [])) (by decide) (by decide) rfl rfl rfl,
    by decide⟩

/-! ## Chunker lemmas for claim C8 -/

/-- `List.intercalate` over at least two pieces. -/
theorem intercalate_cons_of_ne_nil (sep x : List Char) (l : List (List Char)) (h : l ≠ []) :
    List.intercalate sep (x :: l) = x ++ sep ++ List.intercalate sep l := by
  cases l with
  | nil => exact absurd rfl h
  | cons y ys => simp [List.intercalate]

/-- Splitting always returns at least one piece. -/
theorem splitOnGo_ne_nil (sep : List Char) :
    ∀ (fuel : Nat) (text acc : List Char), splitOnGo sep fuel text acc ≠ [] := by
  intro fuel
  induction fuel with
  | zero =>
    intro text acc
    cases text <;> simp [splitOnGo]
  | succ fuel ih =>
    intro text acc
    cases text with
    | nil => simp [splitOnGo]
    | cons c rest =>
      rw [splitOnGo]
      by_cases hp : sep.isPrefixOf (c :: rest)
      · simp [hp]
      · simpa [hp] using ih rest (c :: acc)

/-- Joining the pieces of a split with the separator restores the text. -/
theorem splitOnGo_intercalate (sep : List Char) (hsep : sep ≠ []) :
    ∀ (fuel : Nat) (text acc : List Char), text.length ≤ fuel →
      List.intercalate sep (splitOnGo sep fuel text acc) = acc.reverse ++ text := by
  intro fuel
  induction fuel with
  | zero =>
    intro text acc h
    have htext : text = [] := List.eq_nil_of_length_eq_zero (Nat.le_zero.mp h)
    subst htext
    simp [splitOnGo, List.intercalate]
  | succ fuel ih =>
    intro text acc h
    cases text with
    | nil => simp [splitOnGo, List.intercalate]
    | cons c rest =>
      rw [splitOnGo]
      by_cases hp : sep.isPrefixOf (c :: rest)
      · rw [if_pos hp]
        have hpre : sep <+: (c :: rest) := List.isPrefixOf_iff_prefix.mp hp
        obtain ⟨t, ht⟩ := hpre
        have hd : rest.drop (sep.length - 1) = t := by
          have h1 : (c :: rest).drop sep.length = t := by
            rw [← ht, List.drop_left]
          cases hs : sep with
          | nil => exact absurd hs hsep
          | cons s0 srest =>
            rw [hs] at h1
            simpa [List.drop_succ_cons] using h1
        rw [intercalate_cons_of_ne_nil sep _ _ (splitOnGo_ne_nil sep fuel _ [])]
        have hlen : (rest.drop (sep.length - 1)).length ≤ fuel := by
          rw [List.length_drop]
          have := Nat.le_of_succ_le_succ h
          omega
        rw [ih _ [] hlen, hd]
        rw [← ht]
        simp
      · rw [if_neg hp]
        rw [ih rest (c :: acc) (Nat.le_of_succ_le_succ h)]
        simp

/-- Filtering out empty pieces preserves the join. -/
theorem join_filter_nonempty (l : List (List Char)) :
    (l.filter (fun x => !x.isEmpty)).flatten = l.flatten := by
  induction l with
  | nil => rfl
  | cons x xs ih =>
    by_cases hx : x.isEmpty
    · have : x = [] := by simpa [List.isEmpty_iff] using hx
      subst this
      simpa [List.filter_cons] using ih
    · simp [List.filter_cons, hx, ih]

/-- Joining pieces that carry the separator glued in front equals
intercalating the raw pieces. -/
theorem join_cons_map_append (sep : List Char) :
    ∀ (ts : List (List Char)) (t : List Char),
      (t :: ts.map (fun x => sep ++ x)).flatten = List.intercalate sep (t :: ts) := by
  intro ts
  induction ts with
  | nil => intro t; simp [List.intercalate]
  | cons y ys ih =>
    intro t
    rw [intercalate_cons_of_ne_nil sep t (y :: ys) (by simp)]
    simp only [List.map_cons, List.flatten_cons, ← ih y]
    simp [List.append_assoc]

/-- Character-level splitting joins back to the text. -/
theorem join_map_singleton (text : List Char) :
    (text.map (fun c => [c])).flatten = text := by
  induction text with
  | nil => rfl
  | cons c rest ih => simp [ih]

/-- The pieces `_split_text_with_regex` produces join back to the input text
(with `keep_separator = True` no character is lost). -/
theorem splitTextWithSep_join (text sep : List Char) :
    (splitTextWithSep text sep).flatten = text := by
  unfold splitTextWithSep
  rw [join_filter_nonempty]
  by_cases hs : sep.isEmpty
  · rw [if_pos hs, join_map_singleton]
  · rw [if_neg hs]
    have hsep : sep ≠ [] := by simpa [List.isEmpty_iff] using hs
    cases hsplit : splitOnSub sep text with
    | nil => exact absurd hsplit (splitOnGo_ne_nil sep text.length text [])
    | cons t ts =>
      rw [join_cons_map_append, ← hsplit]
      simpa using splitOnGo_intercalate sep hsep text.length text [] (Nat.le_refl _)

/-- Every piece `_split_text_with_regex` returns is non-empty. -/
theorem splitTextWithSep_ne_nil (text sep : List Char) :
    ∀ x ∈ splitTextWithSep text sep, x ≠ [] := by
  intro x hx
  rcases List.mem_filter.mp hx with ⟨_, hne⟩
  simpa [List.isEmpty_iff] using hne

/-- The piece lengths sum to the text length. -/
theorem splitTextWithSep_sum_length (text sep : List Char) :
    ((splitTextWithSep text sep).map List.length).sum = text.length := by
  rw [← List.length_flatten, splitTextWithSep_join]

/-- The separator-choice loop always leaves strictly fewer remaining
separators. -/
theorem chooseSepAux_some_length :
    ∀ (seps : List (List Char)) (text : List Char) (r : List Char × List (List Char)),
      chooseSepAux seps text = some r → r.2.length < seps.length := by
  intro seps
  induction seps with
  | nil => intro text r h; simp [chooseSepAux] at h
  | cons s rest ih =>
    intro text r h
    rw [chooseSepAux] at h
    by_cases hs : s.isEmpty
    · rw [if_pos hs] at h
      cases h
      simp
    · rw [if_neg hs] at h
      by_cases hh : hasSub s text
      · rw [if_pos hh] at h
        cases h
        simp
      · rw [if_neg hh] at h
        exact Nat.lt_succ_of_lt (ih text r h)

/-- The chosen `new_separators` list is strictly shorter than the input
list. -/
theorem chooseSep_length (seps : List (List Char)) (text : List Char) (h : seps ≠ []) :
    (chooseSep seps text).2.length < seps.length := by
  unfold chooseSep
  cases ha : chooseSepAux seps text with
  | some r => exact chooseSepAux_some_length seps text r ha
  | none =>
    simp only [Option.getD_none]
    exact List.length_pos.mpr h

/-- When the empty separator is among the candidates, the loop always picks
some separator. -/
theorem chooseSepAux_isSome (seps : List (List Char)) (text : List Char)
    (hmem : [] ∈ seps) : ∃ r, chooseSepAux seps text = some r := by
  induction seps with
  | nil => simp at hmem
  | cons s rest ih =>
    rw [chooseSepAux]
    by_cases hs : s.isEmpty
    · exact ⟨_, by rw [if_pos hs]⟩
    · rw [if_neg hs]
      by_cases hh : hasSub s text
      · exact ⟨_, by rw [if_pos hh]⟩
      · rw [if_neg hh]
        have : [] ∈ rest := by
          rcases List.mem_cons.mp hmem with h | h
          · exact absurd h.symm (by simpa [List.isEmpty_iff] using hs)
          · exact h
        exact ih this

/-- When the empty separator is among the candidates and a non-empty separator
is chosen, the empty separator remains among the new separators. -/
theorem chooseSep_mem_nil :
    ∀ (seps : List (List Char)) (text : List Char), [] ∈ seps →
      (chooseSep seps text).1 ≠ [] → [] ∈ (chooseSep seps text).2 := by
  intro seps
  induction seps with
  | nil => intro text hmem; simp at hmem
  | cons s rest ih =>
    intro text hmem hne
    have hrest : s ≠ [] → [] ∈ rest := by
      intro hs
      rcases List.mem_cons.mp hmem with h | h
      · exact absurd h.symm hs
      · exact h
    unfold chooseSep at *
    rw [chooseSepAux] at *
    by_cases hs : s.isEmpty
    · rw [if_pos hs] at hne ⊢
      simp at hne
    · rw [if_neg hs] at hne ⊢
      by_cases hh : hasSub s text
      · rw [if_pos hh] at hne ⊢
        exact hrest (by simpa [List.isEmpty_iff] using hs)
      · rw [if_neg hh] at hne ⊢
        have hmem' : [] ∈ rest := hrest (by simpa [List.isEmpty_iff] using hs)
        obtain ⟨r, hr⟩ := chooseSepAux_isSome rest text hmem'
        rw [hr] at hne ⊢
        have hih := ih text hmem'
        rw [hr] at hih
        simp only [Option.getD_some] at hih hne ⊢
        exact hih hne

/-- Stripping an all-whitespace text leaves nothing. -/
theorem pyStrip_eq_nil (l : List Char) (h : ∀ c ∈ l, isPySpace c) : pyStrip l = [] := by
  unfold pyStrip
  have h1 : l.dropWhile isPySpace = [] := List.dropWhile_eq_nil_iff.mpr h
  rw [h1]
  rfl

/-- Stripping a text that has a non-whitespace character leaves something. -/
theorem pyStrip_ne_nil (l : List Char) (h : ∃ c ∈ l, ¬ isPySpace c = true) :
    pyStrip l ≠ [] := by
  intro hnil
  obtain ⟨c, hc, hcs⟩ := h
  apply hcs
  unfold pyStrip at hnil
  rw [List.reverse_eq_nil_iff] at hnil
  have h2 : ∀ x ∈ (l.dropWhile isPySpace).reverse, isPySpace x :=
    List.dropWhile_eq_nil_iff.mp hnil
  have h3 : ∀ x ∈ l.dropWhile isPySpace, isPySpace x := by
    intro x hx
    exact h2 x (List.mem_reverse.mpr hx)
  have h4 : l = l.takeWhile isPySpace ++ l.dropWhile isPySpace :=
    (List.takeWhile_append_dropWhile isPySpace l).symm
  rw [h4] at hc
  rcases List.mem_append.mp hc with h5 | h5
  · exact List.mem_takeWhile_imp h5
  · exact h3 c h5

/-- Intercalating with the empty separator (the merge separator under
`keep_separator = True`) is flattening. -/
theorem intercalate_nil (l : List (List Char)) : List.intercalate [] l = l.flatten := by
  induction l with
  | nil => rfl
  | cons a t ih =>
    cases t with
    | nil => simp [List.intercalate]
    | cons b t' =>
      rw [intercalate_cons_of_ne_nil [] a (b :: t') (by simp), ih]
      simp

/-- Joining all-whitespace documents with the empty separator strips to
nothing. -/
theorem joinDocs_allSpace (docs : List (List Char))
    (h : ∀ x ∈ docs, ∀ c ∈ x, isPySpace c) : joinDocs docs [] = none := by
  unfold joinDocs
  have hall : ∀ c ∈ (List.intercalate ([] : List Char) docs), isPySpace c := by
    rw [intercalate_nil]
    intro c hc
    obtain ⟨x, hx, hcx⟩ := List.mem_flatten.mp hc
    exact h x hx c hcx
  rw [pyStrip_eq_nil _ hall]
  rfl

/-- Joining documents with a non-whitespace character yields that stripped
join. -/
theorem joinDocs_some (docs : List (List Char))
    (h : ∃ c ∈ docs.flatten, ¬ isPySpace c = true) :
    joinDocs docs [] = some (pyStrip docs.flatten) := by
  unfold joinDocs
  rw [intercalate_nil]
  have := pyStrip_ne_nil docs.flatten h
  simp [List.isEmpty_iff, this]

/-- The step equation of `mergeGo` on a non-empty split list, with the let
bindings expanded. -/
theorem mergeGo_cons (sep : List Char) (cs co : Nat) (d : List Char) (ds current : List (List Char))
    (total : Int) :
    mergeGo sep cs co (d :: ds) current total =
      if total + (d.length : Int) + (if current.length > 0 then (sep.length : Int) else 0)
          > (cs : Int) then
        (match joinDocs current sep with
          | some doc => [doc]
          | none => [])
          ++ mergeGo sep cs co ds ((popWhile sep cs co d.length current total).1 ++ [d])
              ((popWhile sep cs co d.length current total).2 + (d.length : Int)
                + (if ((popWhile sep cs co d.length current total).1 ++ [d]).length > 1 then
                    (sep.length : Int) else 0))
      else
        mergeGo sep cs co ds (current ++ [d])
          (total + (d.length : Int)
            + (if (current ++ [d]).length > 1 then (sep.length : Int) else 0)) := rfl

/-- Popping from the window only drops documents; it adds none. -/
theorem popWhile_mem (sep : List Char) (cs co : Nat) (dlen : Int) :
    ∀ (current : List (List Char)) (total : Int),
      ∀ x ∈ (popWhile sep cs co dlen current total).1, x ∈ current := by
  intro current
  induction current with
  | nil => intro total x hx; simp [popWhile] at hx
  | cons c0 rest ih =>
    intro total x hx
    rw [popWhile] at hx
    split_ifs at hx
    all_goals
      first
        | exact List.mem_cons_of_mem _ (ih _ x hx)
        | exact hx

/-- Merging all-whitespace splits over the empty separator emits no
document: every flush strips to nothing and so does the final join. -/
theorem mergeGo_allSpace (cs co : Nat) :
    ∀ (splits current : List (List Char)) (total : Int),
      (∀ x ∈ splits, ∀ c ∈ x, isPySpace c) →
      (∀ x ∈ current, ∀ c ∈ x, isPySpace c) →
      mergeGo [] cs co splits current total = [] := by
  intro splits
  induction splits with
  | nil =>
    intro current total _ hcur
    rw [mergeGo, joinDocs_allSpace current hcur]
  | cons d ds ih =>
    intro current total hs hcur
    have hd : ∀ c ∈ d, isPySpace c := hs d (List.mem_cons_self _ _)
    have hds : ∀ x ∈ ds, ∀ c ∈ x, isPySpace c :=
      fun x hx => hs x (List.mem_cons_of_mem _ hx)
    rw [mergeGo_cons]
    simp only [List.length_nil, Nat.cast_zero, ite_self, add_zero]
    split_ifs with hcond
    · rw [joinDocs_allSpace current hcur,
        ih _ _ hds (by
          intro x hx
          rcases List.mem_append.mp hx with h | h
          · exact hcur x (popWhile_mem [] cs co d.length current total x h)
          · rw [List.mem_singleton.mp h]
            exact hd)]
      rfl
    · exact ih _ _ hds (by
        intro x hx
        rcases List.mem_append.mp hx with h | h
        · exact hcur x h
        · rw [List.mem_singleton.mp h]
          exact hd)

/-- When the accumulated window plus all remaining splits fit within
`chunk_size`, the merge never flushes: everything ends in one final join. -/
theorem mergeGo_noflush (cs co : Nat) :
    ∀ (splits current : List (List Char)) (total : Int),
      total = ((current.map List.length).sum : Int) →
      (current.map List.length).sum + (splits.map List.length).sum ≤ cs →
      mergeGo [] cs co splits current total =
        (match joinDocs (current ++ splits) [] with
          | some doc => [doc]
          | none => []) := by
  intro splits
  induction splits with
  | nil =>
    intro current total _ _
    rw [mergeGo, List.append_nil]
  | cons d ds ih =>
    intro current total htot hsum
    rw [mergeGo_cons]
    simp only [List.length_nil, Nat.cast_zero, ite_self, add_zero]
    rw [List.map_cons, List.sum_cons] at hsum
    rw [if_neg (by rw [htot]; norm_cast; omega)]
    rw [ih (current ++ [d]) (total + (d.length : Int))
        (by rw [htot]; simp [List.map_append])
        (by simp only [List.map_append, List.sum_append]; simp; omega)]
    simp [List.append_assoc]

/-- `_merge_splits` over splits that fit in one chunk is a single join. -/
theorem mergeSplits_noflush (cs co : Nat) (splits : List (List Char))
    (h : (splits.map List.length).sum ≤ cs) :
    mergeSplits splits [] cs co =
      (match joinDocs splits [] with
        | some doc => [doc]
        | none => []) := by
  unfold mergeSplits
  rw [mergeGo_noflush cs co splits [] 0 (by simp) (by simpa using h), List.nil_append]

/-- When every split is shorter than `chunk_size`, the processing loop only
buffers and finally merges everything. -/
theorem procSplits_allgood (recur : List Char → List (List Char)) (b : Bool) (cs co : Nat) :
    ∀ (splits good : List (List Char)), (∀ x ∈ splits, x.length < cs) →
      procSplits recur b cs co splits good =
        if (good ++ splits).isEmpty then [] else mergeSplits (good ++ splits) [] cs co := by
  intro splits
  induction splits with
  | nil =>
    intro good _
    rw [procSplits, List.append_nil]
  | cons sp rest ih =>
    intro good hgood
    rw [procSplits, if_pos (hgood sp (List.mem_cons_self _ _)),
      ih (good ++ [sp]) (fun x hx => hgood x (List.mem_cons_of_mem _ hx)),
      List.append_assoc]
    rfl

/-- Processing all-whitespace splits emits nothing, provided every too-long
split recursively splits to nothing. -/
theorem procSplits_allSpace (recur : List Char → List (List Char)) (b : Bool) (cs co : Nat) :
    ∀ (splits good : List (List Char)),
      (∀ x ∈ splits, ∀ c ∈ x, isPySpace c) →
      (∀ x ∈ good, ∀ c ∈ x, isPySpace c) →
      (∀ s ∈ splits, ¬ s.length < cs → b = false ∧ recur s = []) →
      procSplits recur b cs co splits good = [] := by
  intro splits
  induction splits with
  | nil =>
    intro good _ hgood _
    rw [procSplits]
    split_ifs
    · rfl
    · exact mergeGo_allSpace cs co good [] 0 hgood (by simp)
  | cons sp rest ih =>
    intro good hs hgood hrec
    have hsp : ∀ c ∈ sp, isPySpace c := hs sp (List.mem_cons_self _ _)
    have hrest : ∀ x ∈ rest, ∀ c ∈ x, isPySpace c :=
      fun x hx => hs x (List.mem_cons_of_mem _ hx)
    rw [procSplits]
    by_cases hlen : sp.length < cs
    · rw [if_pos hlen]
      refine ih (good ++ [sp]) hrest ?_ (fun s hsr => hrec s (List.mem_cons_of_mem _ hsr))
      intro x hx
      rcases List.mem_append.mp hx with h | h
      · exact hgood x h
      · rw [List.mem_singleton.mp h]
        exact hsp
    · rw [if_neg hlen]
      obtain ⟨hb, hr⟩ := hrec sp (List.mem_cons_self _ _) hlen
      subst hb
      rw [if_neg Bool.false_ne_true, hr,
        ih [] hrest (by simp) (fun s hsr => hrec s (List.mem_cons_of_mem _ hsr))]
      by_cases hg : good.isEmpty
      · rw [if_pos hg]
        rfl
      · rw [if_neg hg, show mergeSplits good [] cs co = [] from
          mergeGo_allSpace cs co good [] 0 hgood (by simp)]
        rfl

/-- Character-level splitting yields only single-character pieces. -/
theorem splitTextWithSep_nil_len (text : List Char) :
    ∀ x ∈ splitTextWithSep text [], x.length = 1 := by
  intro x hx
  unfold splitTextWithSep at hx
  simp only [List.isEmpty_nil] at hx
  rw [if_pos trivial] at hx
  rcases List.mem_filter.mp hx with ⟨hmem, _⟩
  obtain ⟨c, _, hc⟩ := List.mem_map.mp hmem
  rw [← hc]
  rfl

/-- If the non-empty pieces of a text that fits in one chunk contain a piece
at least `chunk_size` long, that piece is the whole text and the only
piece. -/
theorem splits_eq_singleton {splits : List (List Char)} {text : List Char} {cs : Nat}
    (hjoin : splits.flatten = text) (hne : ∀ x ∈ splits, x ≠ [])
    (hlen : text.length ≤ cs) {p : List Char} (hp : p ∈ splits) (hbig : cs ≤ p.length) :
    splits = [p] ∧ p = text := by
  have hsum : (splits.map List.length).sum = text.length := by
    rw [← List.length_flatten, hjoin]
  have hone : ∀ x ∈ splits, 1 ≤ x.length :=
    fun x hx => List.length_pos.mpr (hne x hx)
  cases splits with
  | nil => simp at hp
  | cons a t =>
    cases t with
    | nil =>
      have hpa : p = a := by simpa using hp
      subst hpa
      refine ⟨rfl, ?_⟩
      simpa using hjoin
    | cons b t' =>
      exfalso
      have hsum3 : (List.map List.length (a :: b :: t')).sum
          = a.length + (b.length + (t'.map List.length).sum) := by simp
      rw [hsum3] at hsum
      rcases List.mem_cons.mp hp with hpa | hpbt
      · subst hpa
        have hble : 1 ≤ b.length := hone b (by simp)
        omega
      · have hale : 1 ≤ a.length := hone a (by simp)
        have hple : p.length ≤ b.length + (t'.map List.length).sum := by
          have hmm : p.length ∈ (b :: t').map List.length := List.mem_map.mpr ⟨p, hpbt, rfl⟩
          have hle := List.single_le_sum (fun (x : Nat) _ => Nat.zero_le x) _ hmm
          simpa using hle
        omega

/-- The step equation of `_split_text` on a non-empty separator list. -/
theorem splitTextRec_succ (fuel : Nat) (seps : List (List Char)) (text : List Char)
    (cs co : Nat) (h : seps.isEmpty = false) :
    splitTextRec (fuel + 1) seps text cs co
      = procSplits (fun t => splitTextRec fuel (chooseSep seps text).2 t cs co)
          (chooseSep seps text).2.isEmpty cs co (splitTextWithSep text (chooseSep seps text).1)
          [] := by
  rw [splitTextRec, if_neg (by rw [h]; exact Bool.false_ne_true)]

/-- An all-whitespace text splits to no chunks, whatever the separator level,
as long as the empty separator is among the candidates and `chunk_size ≥ 2`. -/
theorem splitTextRec_allSpace :
    ∀ (fuel : Nat) (seps : List (List Char)) (text : List Char) (cs co : Nat),
      seps.length ≤ fuel → [] ∈ seps → 2 ≤ cs →
      (∀ c ∈ text, isPySpace c) →
      splitTextRec fuel seps text cs co = [] := by
  intro fuel
  induction fuel with
  | zero => intro seps text cs co _ _ _ _; rfl
  | succ fuel ih =>
    intro seps text cs co hf hmem hcs hsp
    have hseps : seps.isEmpty = false := by
      rw [List.isEmpty_eq_false_iff_exists_mem]
      exact ⟨[], hmem⟩
    rw [splitTextRec_succ fuel seps text cs co hseps]
    apply procSplits_allSpace
    · intro x hx c hcx
      have hcm : c ∈ (splitTextWithSep text (chooseSep seps text).1).flatten :=
        List.mem_flatten.mpr ⟨x, hx, hcx⟩
      rw [splitTextWithSep_join] at hcm
      exact hsp c hcm
    · intro x hx
      simp at hx
    · intro s hsmem hslen
      have hsep1 : (chooseSep seps text).1 ≠ [] := by
        intro hnil
        rw [hnil] at hsmem
        have := splitTextWithSep_nil_len text s hsmem
        omega
      have hmem2 : [] ∈ (chooseSep seps text).2 := chooseSep_mem_nil seps text hmem hsep1
      refine ⟨?_, ?_⟩
      · rw [List.isEmpty_eq_false_iff_exists_mem]
        exact ⟨[], hmem2⟩
      · refine ih (chooseSep seps text).2 s cs co ?_ hmem2 hcs ?_
        · have := chooseSep_length seps text (List.ne_nil_of_mem hmem)
          omega
        · intro c hcs'
          have hcm : c ∈ (splitTextWithSep text (chooseSep seps text).1).flatten :=
            List.mem_flatten.mpr ⟨s, hsmem, hcs'⟩
          rw [splitTextWithSep_join] at hcm
          exact hsp c hcm

/-- A text with a non-whitespace character that fits within `chunk_size`
splits to exactly its stripped self, whatever the separator level, as long as
the empty separator is among the candidates and `chunk_size ≥ 2`. -/
theorem splitTextRec_single :
    ∀ (fuel : Nat) (seps : List (List Char)) (text : List Char) (cs co : Nat),
      seps.length ≤ fuel → [] ∈ seps → 2 ≤ cs →
      (∃ c ∈ text, ¬ isPySpace c = true) → text.length ≤ cs →
      splitTextRec fuel seps text cs co = [pyStrip text] := by
  intro fuel
  induction fuel with
  | zero =>
    intro seps text cs co hf hmem _ _ _
    have := List.length_pos.mpr (List.ne_nil_of_mem hmem)
    omega
  | succ fuel ih =>
    intro seps text cs co hf hmem hcs hex hlen
    have hseps : seps.isEmpty = false := by
      rw [List.isEmpty_eq_false_iff_exists_mem]
      exact ⟨[], hmem⟩
    rw [splitTextRec_succ fuel seps text cs co hseps]
    have hjoin := splitTextWithSep_join text (chooseSep seps text).1
    have hne := splitTextWithSep_ne_nil text (chooseSep seps text).1
    have hsum := splitTextWithSep_sum_length text (chooseSep seps text).1
    by_cases hgood : ∀ x ∈ splitTextWithSep text (chooseSep seps text).1, x.length < cs
    · rw [procSplits_allgood _ _ cs co _ [] hgood, List.nil_append]
      have hsplitsne : splitTextWithSep text (chooseSep seps text).1 ≠ [] := by
        intro h0
        obtain ⟨c, hc, _⟩ := hex
        rw [← hjoin, h0] at hc
        simp at hc
      rw [if_neg (by simpa [List.isEmpty_iff] using hsplitsne)]
      rw [mergeSplits_noflush cs co _ (by rw [hsum]; exact hlen)]
      rw [joinDocs_some _ (by rw [hjoin]; exact hex), hjoin]
    · push_neg at hgood
      obtain ⟨p, hp, hbig⟩ := hgood
      obtain ⟨hsingle, hptext⟩ := splits_eq_singleton hjoin hne hlen hp hbig
      rw [hsingle, procSplits, if_neg (Nat.not_lt.mpr hbig)]
      have hsep1 : (chooseSep seps text).1 ≠ [] := by
        intro hnil
        rw [hnil] at hp
        have := splitTextWithSep_nil_len text p hp
        omega
      have hmem2 : [] ∈ (chooseSep seps text).2 := chooseSep_mem_nil seps text hmem hsep1
      have hb : (chooseSep seps text).2.isEmpty = false := by
        rw [List.isEmpty_eq_false_iff_exists_mem]
        exact ⟨[], hmem2⟩
      rw [hb, if_neg Bool.false_ne_true]
      rw [ih (chooseSep seps text).2 p cs co
        (by have := chooseSep_length seps text (List.ne_nil_of_mem hmem); omega)
        hmem2 hcs (hptext ▸ hex) (hptext ▸ hlen)]
      rw [hptext, procSplits]
      simp

/-! ## Claim C8: chunking edge cases -/

/-- C8 is false exactly as stated: under valid parameters the single-space
text is non-empty with length at most `chunk_size`, yet the chunk operation
returns zero chunks, not one (the join strips to nothing). -/
theorem chunk_text_whitespace_cex :
    validChunkParams 1000 200
      ∧ ([' '] : List Char) ≠ []
      ∧ ([' '] : List Char).length ≤ 1000
      ∧ (DocumentProcessor.chunk_text none [' '] 1000 200).2 = []
      ∧ ¬ (DocumentProcessor.chunk_text none [' '] 1000 200).2.length = 1 :=
  ⟨⟨by decide, by decide, by decide⟩, by decide, by decide, by decide, by decide⟩

/-- C8 (amended): for every valid `(chunk_size, chunk_overlap)`, an empty or
whitespace-only text yields zero chunks, and a text that contains a
non-whitespace character and whose length is at most `chunk_size` yields
exactly one chunk — whatever splitter the processor has cached. -/
theorem chunk_text_edge_cases (cache : Option Splitter) (text : List Char) (cs co : Nat)
    (h : validChunkParams cs co) :
    ((∀ c ∈ text, isPySpace c) → (DocumentProcessor.chunk_text cache text cs co).2 = [])
      ∧ ((∃ c ∈ text, ¬ isPySpace c = true) → text.length ≤ cs →
          (DocumentProcessor.chunk_text cache text cs co).2.length = 1) := by
  obtain ⟨h1, h2, h3⟩ := h
  have hcs : 2 ≤ cs := by omega
  have hmem : ([] : List Char) ∈ recursiveSeparators := by simp [recursiveSeparators]
  constructor
  · intro hsp
    rw [chunk_text_snd]
    exact splitTextRec_allSpace recursiveSeparators.length recursiveSeparators text cs co
      (Nat.le_refl _) hmem hcs hsp
  · intro hex hlen
    rw [chunk_text_snd]
    unfold splitTextTop
    rw [splitTextRec_single recursiveSeparators.length recursiveSeparators text cs co
      (Nat.le_refl _) hmem hcs hex hlen]
    rfl

/-- Witness for C8 (amended): `"hi"` yields exactly the one chunk `"hi"`, and
a whitespace-only text yields zero chunks. -/
theorem chunk_text_edge_cases_witness :
    ((∀ c ∈ (['h', 'i'] : List Char), isPySpace c) →
        (DocumentProcessor.chunk_text none ['h', 'i'] 1000 200).2 = [])
      ∧ ((∃ c ∈ (['h', 'i'] : List Char), ¬ isPySpace c = true) →
          (['h', 'i'] : List Char).length ≤ 1000 →
          (DocumentProcessor.chunk_text none ['h', 'i'] 1000 200).2.length = 1)
      ∧ (DocumentProcessor.chunk_text none ['h', 'i'] 1000 200).2 = [['h', 'i']]
      ∧ (DocumentProcessor.chunk_text none [' ', '\t'] 1000 200).2 = [] :=
  ⟨(chunk_text_edge_cases none ['h', 'i'] 1000 200 ⟨by decide, by decide, by decide⟩).1,
    (chunk_text_edge_cases none ['h', 'i'] 1000 200 ⟨by decide, by decide, by decide⟩).2,
    by decide, by decide⟩
